import Mathlib

/-!
Verification of the tabular preprocessing core of `helper.py`
(data-science-keras repository).

The embedding models a pandas DataFrame as an ordered list of named, typed
columns.  A numerical column holds `Option K` cells over a linear ordered
field `K` (Python floats are modelled by `ℝ` where the code computes square
roots; purely structural results are stated polymorphically so that they can
be evaluated over `ℚ`).  A categorical column holds `Option String` cells.
`none` is the missing marker (`NaN`).  A dtype cast that preserves every cell
value (such as `astype('category')` on an indicator column) is not tracked:
the embedding follows cell values, not dtype tags.
-/

/-- A dataframe column: numerical cells or categorical labels; `none` is NaN. -/
inductive Col (K : Type) where
  | num (cells : List (Option K)) : Col K
  | cat (cells : List (Option String)) : Col K
  deriving DecidableEq

/-- A dataframe: an ordered association list of named columns. -/
structure DF (K : Type) where
  cols : List (String × Col K)
  deriving DecidableEq

/-- Number of cells of a column. -/
def Col.length {K : Type} : Col K → ℕ
  | Col.num cells => cells.length
  | Col.cat cells => cells.length

/-- Column names of an association list of columns, in table order. -/
def colNames {K : Type} (cols : List (String × Col K)) : List String :=
  cols.map Prod.fst

/-- First column with the given name (pandas `data[f]` on unique labels). -/
def findCol? {K : Type} (cols : List (String × Col K)) (f : String) : Option (Col K) :=
  (cols.find? (fun p => decide (p.1 = f))).map Prod.snd

/-- Column names of a dataframe, in order. -/
def DF.names {K : Type} (df : DF K) : List String := colNames df.cols

/-- First column of the dataframe with the given name. -/
def DF.col? {K : Type} (df : DF K) (f : String) : Option (Col K) := findCol? df.cols f

/-- Row count (`df.shape[0]`): the length of the first column, 0 if empty. -/
def DF.nrows {K : Type} (df : DF K) : ℕ :=
  match df.cols with
  | [] => 0
  | p :: _ => p.2.length

/-- Names of the numerical columns (`select_dtypes(include=[np.number])`). -/
def numNames {K : Type} (df : DF K) : List String :=
  df.cols.filterMap (fun p => match p.2 with | Col.num _ => some p.1 | Col.cat _ => none)

/-- Names of the categorical columns (`select_dtypes(include=['category'])`). -/
def catNames {K : Type} (df : DF K) : List String :=
  df.cols.filterMap (fun p => match p.2 with | Col.cat _ => some p.1 | Col.num _ => none)

/-- The non-missing values of a column, in row order (pandas `skipna`). -/
def present {α : Type} : List (Option α) → List α
  | [] => []
  | none :: rest => present rest
  | some x :: rest => x :: present rest

theorem present_eq_filterMap {α : Type} (cells : List (Option α)) :
    present cells = cells.filterMap id := by
  induction cells with
  | nil => rfl
  | cons o rest ih => cases o <;> simp [present, ih]

/-- Column mean over non-missing cells (`Series.mean`). -/
def colMean {K : Type} [LinearOrderedField K] (cells : List (Option K)) : K :=
  (present cells).sum / (present cells).length

/-- Sample variance over non-missing cells (`Series.std` squared, `ddof=1`). -/
def colVar {K : Type} [LinearOrderedField K] (cells : List (Option K)) : K :=
  ((present cells).map (fun x => (x - colMean cells) ^ 2)).sum /
    (((present cells).length : K) - 1)

/-- Sample standard deviation of a real column (`Series.std`). -/
noncomputable def colStd (cells : List (Option ℝ)) : ℝ := Real.sqrt (colVar cells)

/-- Column minimum over non-missing cells (`Series.min`). -/
def colMin {K : Type} [LinearOrderedField K] (cells : List (Option K)) : K :=
  match present cells with
  | [] => 0
  | x :: xs => xs.foldl min x

/-- Column maximum over non-missing cells (`Series.max`). -/
def colMax {K : Type} [LinearOrderedField K] (cells : List (Option K)) : K :=
  match present cells with
  | [] => 0
  | x :: xs => xs.foldl max x

/-- Number of occurrences of a label among the non-missing cells
(`Series.value_counts` at one label). -/
def countVal (cells : List (Option String)) (v : String) : ℕ :=
  (present cells).count v

/-- Code-point lexicographic order on labels, stated on the underlying
character lists: the order in which pandas sorts string categories. -/
def labelLe (a b : String) : Prop := a.data ≤ b.data

instance : DecidableRel labelLe := fun a b =>
  inferInstanceAs (Decidable (a.data ≤ b.data))

instance : IsTotal String labelLe := ⟨fun a b => le_total a.data b.data⟩

instance : IsTrans String labelLe := ⟨fun _ _ _ h1 h2 => le_trans h1 h2⟩

instance : IsRefl String labelLe := ⟨fun a => le_refl a.data⟩

/-- The categories of a categorical column: the distinct observed labels in
lexicographic order, as `astype('category')` creates them. -/
def categoriesOf (cells : List (Option String)) : List String :=
  List.insertionSort labelLe (present cells).dedup

/-- Python truthiness of an optional dict or list argument: `None` and an
empty collection are both falsy (`if not scale_param: ...`). -/
def falsyDict {α : Type} (p : Option (List α)) : Bool :=
  match p with
  | none => true
  | some l => l.isEmpty

/-- Error taxonomy of the embedding: a failed `assert` (ConfigurationError),
a failed dict/column lookup (KeyError), and a failed dtype cast. -/
inductive Err where
  | configuration : Err
  | keyError : Err
  | typeError : Err
  deriving DecidableEq

/-- Lookup in an association list (Python `d[f]`, first binding wins). -/
def lookup? {α : Type} (ps : List (String × α)) (f : String) : Option α :=
  (ps.find? (fun p => decide (p.1 = f))).map Prod.snd

/-! ### `scale` (helper.py lines 496-546) -/

/-- Fit-mode transform of one numerical column for a given method: compute the
statistics from the column, rescale its values, and record the statistics
(`scale`, `create_scale = True` branches). -/
noncomputable def fitTransform (method : String) (cells : List (Option ℝ)) :
    List (Option ℝ) × (ℝ × ℝ) :=
  if method = "std" then
    let mean := colMean cells
    let std := colStd cells
    (cells.map (Option.map (fun x => (x - mean) / std)), (mean, std))
  else if method = "minmax" then
    let mn := colMin cells
    let mx := colMax cells
    (cells.map (Option.map (fun x => (x - mn) / (mx - mn))), (mn, mx))
  else
    let mn := colMin cells
    let mx := colMax cells
    (cells.map (Option.map (fun x => 2 * (x - mn) / (mx - mn) - 1)), (mn, mx))

/-- Apply-mode transform of one numerical column from recorded statistics
(`scale`, `create_scale = False` branches).  For `maxabs` the source computes
`0.5 * (values * (max - min) + max + min)`. -/
noncomputable def applyTransform (method : String) (p : ℝ × ℝ) (cells : List (Option ℝ)) :
    List (Option ℝ) :=
  if method = "std" then
    cells.map (Option.map (fun x => (x - p.1) / p.2))
  else if method = "minmax" then
    cells.map (Option.map (fun x => (x - p.1) / (p.2 - p.1)))
  else
    cells.map (Option.map (fun x => 0.5 * (x * (p.2 - p.1) + p.2 + p.1)))

/-- Scale parameters: `dict(numerical_feature: [stat1, stat2])`. -/
abbrev ScaleParam := List (String × (ℝ × ℝ))

/-- The `for f in num:` loop of `scale`: each numerical column is rescaled in
place; in fit mode the statistics are recorded in column order, in apply mode
the recorded statistics are looked up (`scale_param[f]`, KeyError if absent). -/
noncomputable def scaleCols (method : String) (create : Bool) (sp : ScaleParam) :
    List (String × Col ℝ) → Except Err (List (String × Col ℝ) × ScaleParam)
  | [] => Except.ok ([], [])
  | (n, Col.cat cs) :: rest =>
      (scaleCols method create sp rest).map (fun r => ((n, Col.cat cs) :: r.1, r.2))
  | (n, Col.num cs) :: rest =>
      if create then
        (scaleCols method create sp rest).map (fun r =>
          ((n, Col.num (fitTransform method cs).1) :: r.1,
            (n, (fitTransform method cs).2) :: r.2))
      else
        match lookup? sp n with
        | none => Except.error Err.keyError
        | some p =>
            (scaleCols method create sp rest).map (fun r =>
              ((n, Col.num (applyTransform method p cs)) :: r.1, r.2))

/-- `scale(data, scale_param=None, method='std')` (helper.py lines 496-546):
asserts the method name, enters fit mode when `scale_param` is falsy, and
rescales every numerical column.  Returns the table and the statistics map
(the newly created one in fit mode, the given one otherwise). -/
noncomputable def scale (data : DF ℝ) (scale_param : Option ScaleParam) (method : String) :
    Except Err (DF ℝ × ScaleParam) :=
  if method = "std" ∨ method = "minmax" ∨ method = "maxabs" then
    let create_scale := falsyDict scale_param
    let sp := if create_scale then [] else scale_param.getD []
    (scaleCols method create_scale sp data.cols).map
      (fun r => (DF.mk r.1, if create_scale then r.2 else sp))
  else Except.error Err.configuration

/-! ### `remove_outliers` (helper.py lines 197-211) -/

/-- One column of `remove_outliers`: numerical cells deviating from the column
mean by more than `sigma` standard deviations are blanked
(`num_df[np.abs(num_df - num_df.mean()) <= (sigma * num_df.std())]`);
categorical columns are untouched. -/
noncomputable def outlierFilterCol (sigma : ℝ) : Col ℝ → Col ℝ
  | Col.num cs =>
      Col.num (cs.map (fun o => o.bind (fun x =>
        if |x - colMean cs| ≤ sigma * colStd cs then some x else none)))
  | Col.cat cs => Col.cat cs

/-- `remove_outliers(df, sigma=3)` (helper.py lines 197-211): stateless,
recomputes mean and std per numerical column of the given table. -/
noncomputable def remove_outliers (df : DF ℝ) (sigma : ℝ) : DF ℝ :=
  DF.mk (df.cols.map (fun p => (p.1, outlierFilterCol sigma p.2)))

/-! ### `remove_categories` (helper.py lines 148-194) -/

/-- A fitted category vocabulary: `dict(column: categories)`. -/
abbrev CatDict := List (String × List String)

/-- `df[f].cat.set_categories(vocab)`: values outside the vocabulary become
missing, values inside it are kept. -/
def setCategoriesCol (vocab : List String) (cs : List (Option String)) : List (Option String) :=
  cs.map (fun o => o.bind (fun v => if v ∈ vocab then some v else none))

/-- The labels of one column counted strictly below the threshold
(`low_freq = list(count[count < threshold].index)`). -/
def lowFreqCats {K : Type} [LinearOrderedField K] (threshold : K)
    (cs : List (Option String)) : List String :=
  (categoriesOf cs).filter (fun v => decide ((countVal cs v : K) < threshold))

/-- Fit-mode loop of `remove_categories`: per categorical non-target column,
replace low-frequency labels by NaN and record the remaining categories. -/
def fitCatsCols {K : Type} [LinearOrderedField K] (threshold : K) (target : List String) :
    List (String × Col K) → List (String × Col K) × CatDict
  | [] => ([], [])
  | (n, Col.num cs) :: rest =>
      let r := fitCatsCols threshold target rest
      ((n, Col.num cs) :: r.1, r.2)
  | (n, Col.cat cs) :: rest =>
      let r := fitCatsCols threshold target rest
      if n ∈ target then ((n, Col.cat cs) :: r.1, r.2)
      else
        let low := lowFreqCats threshold cs
        let cs' := cs.map (fun o => o.bind (fun v => if v ∈ low then none else some v))
        ((n, Col.cat cs') :: r.1, (n, categoriesOf cs') :: r.2)

/-- Apply-mode loop of `remove_categories`: per categorical non-target column,
force the column to the given vocabulary (`dict_categories[f]`, KeyError if
the column has no entry). -/
def applyCatsCols {K : Type} (D : CatDict) (target : List String) :
    List (String × Col K) → Except Err (List (String × Col K))
  | [] => Except.ok []
  | (n, Col.num cs) :: rest =>
      (applyCatsCols D target rest).map (fun r => (n, Col.num cs) :: r)
  | (n, Col.cat cs) :: rest =>
      if n ∈ target then (applyCatsCols D target rest).map (fun r => (n, Col.cat cs) :: r)
      else
        match lookup? D n with
        | none => Except.error Err.keyError
        | some vf =>
            (applyCatsCols D target rest).map (fun r => (n, Col.cat (setCategoriesCol vf cs)) :: r)

/-- `remove_categories(df, target=None, ratio=0.01, dict_categories=None)`
(helper.py lines 148-194): with a truthy `dict_categories` the table is forced
to the given vocabulary; otherwise labels with frequency strictly below
`df.shape[0] * ratio` are collapsed to missing and the retained categories are
returned as the new vocabulary. -/
def remove_categories {K : Type} [LinearOrderedField K] (df : DF K) (target : List String)
    (ratio : K) (dict_categories : Option CatDict) : Except Err (DF K × CatDict) :=
  let threshold := (df.nrows : K) * ratio
  if falsyDict dict_categories then
    let r := fitCatsCols threshold target df.cols
    Except.ok (DF.mk r.1, r.2)
  else
    (applyCatsCols (dict_categories.getD []) target df.cols).map
      (fun cs => (DF.mk cs, dict_categories.getD []))

/-! ### `replace_by_dummies` (helper.py lines 562-609) -/

/-- Indicator column name: `pd.get_dummies` with `prefix=f` and separator `_`. -/
def dummyName (f c : String) : String := f ++ "_" ++ c

/-- `pd.get_dummies(data[f], prefix=f, drop_first=drop_first)`: one 0/1
indicator column per category of the column (missing rows give all zeros). -/
def get_dummies {K : Type} [Zero K] [One K] (f : String) (cs : List (Option String))
    (drop_first : Bool) : List (String × Col K) :=
  let cats := categoriesOf cs
  let cats := if drop_first then cats.drop 1 else cats
  cats.map (fun c =>
    (dummyName f c, Col.num (cs.map (fun o => if o = some c then some 1 else some (0 : K)))))

/-- The cells of the first categorical column with the given name
(`data[f]` for a category-typed column). -/
def getCatCells {K : Type} (cols : List (String × Col K)) (f : String) : List (Option String) :=
  match findCol? cols f with
  | some (Col.cat cs) => cs
  | _ => []

/-- `data.drop(n, axis=1)`: remove every column labelled `n`. -/
def dropAll {K : Type} (cols : List (String × Col K)) (n : String) : List (String × Col K) :=
  cols.filter (fun p => decide (p.1 ≠ n))

/-- One iteration of the expansion loop of `replace_by_dummies`: concatenate
the indicator columns of `f` at the end of the table, drop `f`, and extend the
list of found indicator names. -/
def dummyStep {K : Type} [Zero K] [One K] (b : Bool)
    (acc : List (String × Col K) × List String) (f : String) :
    List (String × Col K) × List String :=
  let dummy := get_dummies (K := K) f (getCatCells acc.1 f) b
  (dropAll (acc.1 ++ dummy) f, acc.2 ++ colNames dummy)

/-- `data[m] = 0`: overwrite the column if the label exists, else append an
all-zero column over the current row count. -/
def setColZero {K : Type} [Zero K] (nrows : ℕ) (cols : List (String × Col K)) (m : String) :
    List (String × Col K) :=
  if m ∈ colNames cols then
    cols.map (fun p => if p.1 = m then (m, Col.num (List.replicate nrows (some (0 : K)))) else p)
  else cols ++ [(m, Col.num (List.replicate nrows (some (0 : K))))]

/-- `replace_by_dummies(data, target, dummies=None, drop_first=False)`
(helper.py lines 562-609): expand each categorical non-target column into
indicator columns; with a truthy `dummies` vocabulary, drop found indicators
outside the vocabulary and add missing vocabulary indicators as zero columns.
The final `astype('category')` on indicator columns preserves every cell value
and is not tracked. -/
def replace_by_dummies {K : Type} [LinearOrderedField K] (data : DF K) (target : List String)
    (dummies : Option (List String)) (drop_first : Bool) : DF K × List String :=
  let create_dummies := falsyDict dummies
  let categorical_f := (catNames data).filter (fun c => decide (c ∉ target))
  let r := categorical_f.foldl (dummyStep drop_first) (data.cols, [])
  if create_dummies then (DF.mk r.1, r.2)
  else
    let ds := dummies.getD []
    let newNames := r.2.filter (fun n => decide (n ∉ ds))
    let cols2 := newNames.foldl dropAll r.1
    let missing := ds.filter (fun m => decide (m ∉ r.2))
    let cols3 := missing.foldl (setColZero data.nrows) cols2
    (DF.mk cols3, ds)

/-! ### `fill_simple` (helper.py lines 260-314) -/

/-- Sorted non-missing values of a numerical column. -/
def sortedVals {K : Type} [LinearOrderedField K] (cells : List (Option K)) : List K :=
  List.insertionSort (· ≤ ·) (present cells)

/-- Column median (`Series.median`); `none` when every cell is missing, in
which case `fillna` is a no-op. -/
def colMedian? {K : Type} [LinearOrderedField K] (cells : List (Option K)) : Option K :=
  let s := sortedVals cells
  if s.length = 0 then none
  else if s.length % 2 = 1 then some (s.getD (s.length / 2) 0)
  else some ((s.getD (s.length / 2 - 1) 0 + s.getD (s.length / 2) 0) / 2)

/-- Column mean as a fill value; `none` when every cell is missing. -/
def colMean? {K : Type} [LinearOrderedField K] (cells : List (Option K)) : Option K :=
  if present cells = [] then none else some (colMean cells)

/-- Column mode (`Series.mode()` then `.iloc[0]`): pandas returns the most
frequent labels in category order, which for labels sorted by
`astype('category')` makes the choice the first category attaining the
maximal count; `none` when every cell is missing. -/
def colMode (cells : List (Option String)) : Option String :=
  (categoriesOf cells).find? (fun v =>
    decide (∀ w ∈ categoriesOf cells, countVal cells w ≤ countVal cells v))

/-- One column of `fill_simple`: missing numerical cells are filled with the
median or the mean, missing categorical cells with the mode or a fixed label;
target columns and excluded kinds are untouched. -/
def fillCol {K : Type} [LinearOrderedField K] (target : List String)
    (missing_numerical missing_categorical : String)
    (include_numerical include_categorical : Bool) (name : String) : Col K → Col K
  | Col.num cs =>
      if name ∈ target ∨ include_numerical = false then Col.num cs
      else if missing_numerical = "median" then
        Col.num (cs.map (fun o => o.orElse (fun _ => colMedian? cs)))
      else if missing_numerical = "mean" then
        Col.num (cs.map (fun o => o.orElse (fun _ => colMean? cs)))
      else Col.num cs
  | Col.cat cs =>
      if name ∈ target ∨ include_categorical = false then Col.cat cs
      else if missing_categorical = "mode" then
        Col.cat (cs.map (fun o => o.orElse (fun _ => colMode cs)))
      else Col.cat (cs.map (fun o => o.orElse (fun _ => some missing_categorical)))

/-- `fill_simple(df, target, missing_numerical='median',
missing_categorical='mode', include_numerical=True, include_categorical=True)`
(helper.py lines 260-314).  An unrecognized `missing_numerical` only warns and
fills nothing; `add_categories` for a fixed label changes no cell value. -/
def fill_simple {K : Type} [LinearOrderedField K] (df : DF K) (target : List String)
    (missing_numerical missing_categorical : String)
    (include_numerical include_categorical : Bool) : DF K :=
  DF.mk (df.cols.map (fun p =>
    (p.1, fillCol target missing_numerical missing_categorical
      include_numerical include_categorical p.1 p.2)))

/-! ### `classify_data` (helper.py lines 69-104) -/

/-- `astype(np.float32)` of one column: a numerical column keeps its values
(floats are modelled by the field `K`); a categorical column cannot be cast. -/
def astypeFloat {K : Type} : Col K → Except Err (Col K)
  | Col.num cs => Except.ok (Col.num cs)
  | Col.cat _ => Except.error Err.typeError

/-- `df[names]`: select the listed columns in the listed order (KeyError when
a name is absent). -/
def selectCols {K : Type} (df : DF K) : List String → Except Err (List (String × Col K))
  | [] => Except.ok []
  | n :: ns =>
      match df.col? n with
      | none => Except.error Err.keyError
      | some c => (selectCols df ns).map (fun r => (n, c) :: r)

/-- The `for n in df[numerical]` cast loop of `classify_data`; the
`astype('category')` loop preserves every cell value and is not tracked. -/
def castNumericals {K : Type} (numerical : List String) :
    List (String × Col K) → Except Err (List (String × Col K))
  | [] => Except.ok []
  | (n, c) :: rest =>
      if n ∈ numerical then
        match astypeFloat c with
        | Except.error e => Except.error e
        | Except.ok c' => (castNumericals numerical rest).map (fun r => (n, c') :: r)
      else (castNumericals numerical rest).map (fun r => (n, c) :: r)

/-- `classify_data(df, target, numerical=None, categorical=None)` (helper.py
lines 69-104): asserts that a numerical or categorical list is supplied,
completes the missing list by complement, reorders the columns as
numerical features, categorical features, target, and casts dtypes. -/
def classify_data {K : Type} (df : DF K) (target numerical categorical : List String) :
    Except Err (DF K) :=
  if numerical = [] ∧ categorical = [] then Except.error Err.configuration
  else
    let categorical2 := if categorical = [] then df.names.filter (fun c => decide (c ∉ numerical)) else categorical
    let numerical2 := if numerical = [] then df.names.filter (fun c => decide (c ∉ categorical2)) else numerical
    let numerical_f := numerical2.filter (fun c => decide (c ∉ target))
    let categorical_f := categorical2.filter (fun c => decide (c ∉ target))
    match selectCols df (numerical_f ++ categorical_f ++ target) with
    | Except.error e => Except.error e
    | Except.ok cols => (castNumericals numerical2 cols).map DF.mk

/-! ### Generic lemmas about the table model -/

theorem findCol?_cons {K : Type} (n : String) (c : Col K) (cols : List (String × Col K))
    (f : String) :
    findCol? ((n, c) :: cols) f = if n = f then some c else findCol? cols f := by
  by_cases h : n = f <;> simp [findCol?, List.find?, h]

theorem findCol?_nil {K : Type} (f : String) : findCol? ([] : List (String × Col K)) f = none := rfl

theorem findCol?_isSome_mem {K : Type} {cols : List (String × Col K)} {f : String} {c : Col K}
    (h : findCol? cols f = some c) : f ∈ colNames cols := by
  induction cols with
  | nil => simp [findCol?] at h
  | cons p rest ih =>
      obtain ⟨n, c0⟩ := p
      rw [findCol?_cons] at h
      show f ∈ n :: colNames rest
      by_cases hn : n = f
      · exact hn ▸ List.mem_cons_self _ _
      · rw [if_neg hn] at h
        exact List.mem_cons_of_mem _ (ih h)

theorem findCol?_eq_none {K : Type} {cols : List (String × Col K)} {f : String}
    (h : f ∉ colNames cols) : findCol? cols f = none := by
  induction cols with
  | nil => rfl
  | cons p rest ih =>
      obtain ⟨n, c0⟩ := p
      simp only [colNames, List.map_cons, List.mem_cons] at h
      push_neg at h
      rw [findCol?_cons, if_neg (fun hh => h.1 hh.symm)]
      exact ih h.2

theorem findCol?_append_left {K : Type} {cols : List (String × Col K)} {f : String} {c : Col K}
    (h : findCol? cols f = some c) (r : List (String × Col K)) :
    findCol? (cols ++ r) f = some c := by
  induction cols with
  | nil => simp [findCol?] at h
  | cons p rest ih =>
      obtain ⟨n, c0⟩ := p
      rw [findCol?_cons] at h
      rw [List.cons_append, findCol?_cons]
      by_cases hn : n = f
      · simpa [hn] using h
      · rw [if_neg hn] at h ⊢
        exact ih h

theorem findCol?_append_right {K : Type} {cols : List (String × Col K)} {f : String}
    (h : f ∉ colNames cols) (r : List (String × Col K)) :
    findCol? (cols ++ r) f = findCol? r f := by
  induction cols with
  | nil => rfl
  | cons p rest ih =>
      obtain ⟨n, c0⟩ := p
      simp only [colNames, List.map_cons, List.mem_cons] at h
      push_neg at h
      rw [List.cons_append, findCol?_cons, if_neg (fun hh => h.1 hh.symm)]
      exact ih h.2

theorem findCol?_dropAll_ne {K : Type} (cols : List (String × Col K)) {f g : String}
    (h : g ≠ f) : findCol? (dropAll cols f) g = findCol? cols g := by
  induction cols with
  | nil => rfl
  | cons p rest ih =>
      obtain ⟨n, c0⟩ := p
      by_cases hn : n = f
      · subst hn
        rw [findCol?_cons, if_neg (fun hh => h hh.symm)]
        simpa [dropAll] using ih
      · simp only [dropAll, List.filter_cons]
        rw [if_pos (by simp [hn])]
        rw [findCol?_cons, findCol?_cons]
        by_cases hg : n = g
        · simp [hg]
        · rw [if_neg hg, if_neg hg]
          simpa [dropAll] using ih

theorem colNames_dropAll {K : Type} (cols : List (String × Col K)) (f : String) :
    colNames (dropAll cols f) = (colNames cols).filter (fun x => decide (x ≠ f)) := by
  induction cols with
  | nil => rfl
  | cons p rest ih =>
      obtain ⟨n, c0⟩ := p
      by_cases hn : n = f <;>
        simp [dropAll, colNames, List.filter_cons, hn] at ih ⊢ <;>
        simpa [dropAll, colNames] using ih

theorem colNames_append {K : Type} (l r : List (String × Col K)) :
    colNames (l ++ r) = colNames l ++ colNames r := by
  simp [colNames]

/-- A structural per-column transform commutes with column lookup. -/
theorem findCol?_mapCols {K K' : Type} (g : String → Col K → Col K')
    (cols : List (String × Col K)) (f : String) :
    findCol? (cols.map (fun p => (p.1, g p.1 p.2))) f = (findCol? cols f).map (g f) := by
  induction cols with
  | nil => rfl
  | cons p rest ih =>
      obtain ⟨n, c0⟩ := p
      rw [List.map_cons, findCol?_cons, findCol?_cons]
      by_cases hn : n = f
      · subst hn; simp
      · rw [if_neg hn, if_neg hn, ih]

theorem colNames_mapCols {K K' : Type} (g : String → Col K → Col K')
    (cols : List (String × Col K)) :
    colNames (cols.map (fun p => (p.1, g p.1 p.2))) = colNames cols := by
  simp [colNames]

/-- Membership in the categories list is membership among observed labels. -/
theorem mem_categoriesOf {cells : List (Option String)} {v : String} :
    v ∈ categoriesOf cells ↔ v ∈ present cells := by
  simp [categoriesOf, List.mem_insertionSort, List.mem_dedup]

/-- Only the function values at observed labels matter for a label-wise map. -/
theorem map_bind_congr {cells : List (Option String)} {g h : String → Option String}
    (hgh : ∀ v ∈ present cells, g v = h v) :
    cells.map (fun o => o.bind g) = cells.map (fun o => o.bind h) := by
  induction cells with
  | nil => rfl
  | cons o rest ih =>
      have hrest : ∀ v ∈ present rest, g v = h v := by
        intro v hv
        refine hgh v ?_
        cases o <;> simp [present, hv]
      rw [List.map_cons, List.map_cons, ih hrest]
      congr 1
      cases o with
      | none => rfl
      | some v =>
          have : v ∈ present (some v :: rest) := by simp [present]
          simp [hgh v this]

theorem lookup?_cons {α : Type} (n : String) (a : α) (ps : List (String × α)) (f : String) :
    lookup? ((n, a) :: ps) f = if n = f then some a else lookup? ps f := by
  by_cases h : n = f <;> simp [lookup?, List.find?, h]

/-- Closed form of one fitted column of `scale`. -/
noncomputable def scaleColFit (method : String) : Col ℝ → Col ℝ
  | Col.num cs => Col.num (fitTransform method cs).1
  | Col.cat cs => Col.cat cs

/-- In fit mode the `scale` loop never fails and transforms each numerical
column by the fit formula, recording statistics in column order. -/
theorem scaleCols_create (method : String) (sp : ScaleParam) (cols : List (String × Col ℝ)) :
    scaleCols method true sp cols = Except.ok
      (cols.map (fun p => (p.1, scaleColFit method p.2)),
       cols.filterMap (fun p => match p.2 with
         | Col.num cs => some (p.1, (fitTransform method cs).2)
         | Col.cat _ => none)) := by
  induction cols with
  | nil => rfl
  | cons p rest ih =>
      obtain ⟨n, c⟩ := p
      cases c <;> simp [scaleCols, ih, scaleColFit, Except.map]

/-- The statistics recorded by fit mode for the first column named `f`. -/
theorem lookup?_fitParams (method : String) (cols : List (String × Col ℝ)) (f : String)
    (cs : List (Option ℝ)) (hf : findCol? cols f = some (Col.num cs)) :
    lookup? (cols.filterMap (fun p => match p.2 with
      | Col.num cs0 => some (p.1, (fitTransform method cs0).2)
      | Col.cat _ => none)) f = some (fitTransform method cs).2 := by
  induction cols with
  | nil => simp [findCol?] at hf
  | cons p rest ih =>
      obtain ⟨n, c⟩ := p
      rw [findCol?_cons] at hf
      by_cases hn : n = f
      · rw [if_pos hn] at hf
        cases c with
        | num cs0 =>
            have : cs0 = cs := by injection hf with h; injection h
            subst this
            simp [lookup?_cons, hn]
        | cat cs0 => exact absurd hf (by simp)
      · rw [if_neg hn] at hf
        cases c with
        | num cs0 => simp [lookup?_cons, hn, ih hf]
        | cat cs0 => simpa using ih hf

/-- The `scale` loop only ever fails with a KeyError. -/
theorem scaleCols_error_key (method : String) (create : Bool) (sp : ScaleParam)
    (cols : List (String × Col ℝ)) (e : Err)
    (h : scaleCols method create sp cols = Except.error e) : e = Err.keyError := by
  induction cols generalizing e with
  | nil => simp [scaleCols] at h
  | cons p rest ih =>
      obtain ⟨n, c⟩ := p
      cases c with
      | cat cs =>
          rw [scaleCols] at h
          cases hr : scaleCols method create sp rest with
          | ok r => rw [hr] at h; simp [Except.map] at h
          | error e' => rw [hr] at h; simp [Except.map] at h; exact h ▸ ih _ hr
      | num cs =>
          rw [scaleCols] at h
          by_cases hc : create
          · rw [if_pos hc] at h
            cases hr : scaleCols method create sp rest with
            | ok r => rw [hr] at h; simp [Except.map] at h
            | error e' => rw [hr] at h; simp [Except.map] at h; exact h ▸ ih _ hr
          · rw [if_neg hc] at h
            cases hl : lookup? sp n with
            | none => rw [hl] at h; simp at h; exact h.symm
            | some p0 =>
                rw [hl] at h
                cases hr : scaleCols method create sp rest with
                | ok r => rw [hr] at h; simp [Except.map] at h
                | error e' => rw [hr] at h; simp [Except.map] at h; exact h ▸ ih _ hr

/-- `selectCols` only ever fails with a KeyError. -/
theorem selectCols_error_key {K : Type} (df : DF K) (ns : List String) (e : Err)
    (h : selectCols df ns = Except.error e) : e = Err.keyError := by
  induction ns generalizing e with
  | nil => simp [selectCols] at h
  | cons n rest ih =>
      rw [selectCols] at h
      cases hc : df.col? n with
      | none => rw [hc] at h; simp at h; exact h.symm
      | some c =>
          rw [hc] at h
          cases hr : selectCols df rest with
          | ok r => rw [hr] at h; simp [Except.map] at h
          | error e' => rw [hr] at h; simp [Except.map] at h; exact h ▸ ih _ hr

/-- The dtype-cast loop of `classify_data` fails with a KeyError never and
with a ConfigurationError never: only a type error is possible. -/
theorem castNumericals_error_type {K : Type} (numerical : List String)
    (cols : List (String × Col K)) (e : Err)
    (h : castNumericals numerical cols = Except.error e) : e = Err.typeError := by
  induction cols generalizing e with
  | nil => simp [castNumericals] at h
  | cons p rest ih =>
      obtain ⟨n, c⟩ := p
      rw [castNumericals] at h
      by_cases hn : n ∈ numerical
      · rw [if_pos hn] at h
        cases c with
        | num cs =>
            simp only [astypeFloat] at h
            cases hr : castNumericals numerical rest with
            | ok r => rw [hr] at h; simp [Except.map] at h
            | error e' => rw [hr] at h; simp [Except.map] at h; exact h ▸ ih _ hr
        | cat cs => simp [astypeFloat] at h; exact h.symm
      · rw [if_neg hn] at h
        cases hr : castNumericals numerical rest with
        | ok r => rw [hr] at h; simp [Except.map] at h
        | error e' => rw [hr] at h; simp [Except.map] at h; exact h ▸ ih _ hr

/-- C8.  `classify_data` reports a ConfigurationError exactly when neither a
numerical nor a categorical column list is supplied (both falsy), and `scale`
reports a ConfigurationError exactly when the method is none of `std`,
`minmax`, `maxabs`; an error carries no transformed table. -/
theorem classify_and_scale_configuration_iff {K : Type} :
    (∀ (df : DF K) (target numerical categorical : List String),
      classify_data df target numerical categorical = Except.error Err.configuration ↔
        (numerical = [] ∧ categorical = [])) ∧
    (∀ (data : DF ℝ) (sp : Option ScaleParam) (method : String),
      scale data sp method = Except.error Err.configuration ↔
        ¬ (method = "std" ∨ method = "minmax" ∨ method = "maxabs")) := by
  constructor
  · intro df target numerical categorical
    constructor
    · intro h
      by_contra hne
      rw [classify_data, if_neg hne] at h
      simp only [] at h
      cases hs : selectCols df _ with
      | error e =>
          rw [hs] at h
          have := selectCols_error_key _ _ _ hs
          injection h with h'
          rw [h'] at this
          exact absurd this (by decide)
      | ok cols =>
          rw [hs] at h
          simp only [] at h
          cases hcast : castNumericals _ cols with
          | error e =>
              rw [hcast] at h
              simp [Except.map] at h
              have := castNumericals_error_type _ _ _ hcast
              rw [h] at this
              exact absurd this (by decide)
          | ok cols2 => rw [hcast] at h; simp [Except.map] at h
    · intro h
      rw [classify_data, if_pos h]
  · intro data sp method
    constructor
    · intro h
      by_contra hne
      rw [scale, if_pos (by tauto)] at h
      simp only [] at h
      cases hs : scaleCols method (falsyDict sp) (if falsyDict sp = true then [] else sp.getD []) data.cols with
      | error e =>
          rw [hs] at h
          simp [Except.map] at h
          have := scaleCols_error_key _ _ _ _ _ hs
          rw [h] at this
          exact absurd this (by decide)
      | ok r => rw [hs] at h; simp [Except.map] at h
    · intro h
      rw [scale, if_neg h]

/-- C10.  An empty parameter object is indistinguishable from `None`: with
`scale_param = {}`, `dummies = []` or `dict_categories = {}` the three
transforms enter fit mode exactly as with no parameter at all. -/
theorem empty_params_enter_fit_mode {K : Type} [LinearOrderedField K] :
    (∀ (data : DF ℝ) (method : String),
        scale data (some []) method = scale data none method) ∧
    (∀ (df : DF K) (target : List String) (b : Bool),
        replace_by_dummies df target (some []) b = replace_by_dummies df target none b) ∧
    (∀ (df : DF K) (target : List String) (ratio : K),
        remove_categories df target ratio (some []) = remove_categories df target ratio none) := by
  exact ⟨fun _ _ => rfl, fun _ _ _ => rfl, fun _ _ _ => rfl⟩

/-! ### Evaluation lemmas for the scale formulas -/

theorem fitTransform_std (cells : List (Option ℝ)) :
    fitTransform "std" cells =
      (cells.map (Option.map (fun x => (x - colMean cells) / colStd cells)),
        (colMean cells, colStd cells)) := by
  simp [fitTransform]

theorem fitTransform_minmax (cells : List (Option ℝ)) :
    fitTransform "minmax" cells =
      (cells.map (Option.map (fun x => (x - colMin cells) / (colMax cells - colMin cells))),
        (colMin cells, colMax cells)) := by
  simp [fitTransform]

theorem fitTransform_maxabs (cells : List (Option ℝ)) :
    fitTransform "maxabs" cells =
      (cells.map (Option.map (fun x =>
          2 * (x - colMin cells) / (colMax cells - colMin cells) - 1)),
        (colMin cells, colMax cells)) := by
  simp [fitTransform]

theorem applyTransform_maxabs (p : ℝ × ℝ) (cells : List (Option ℝ)) :
    applyTransform "maxabs" p cells =
      cells.map (Option.map (fun x => 0.5 * (x * (p.2 - p.1) + p.2 + p.1))) := by
  simp [applyTransform]

/-- Fit-mode `scale` never fails and produces the fitted columns and the
recorded statistics map. -/
theorem scale_fit_eq (df : DF ℝ) (method : String)
    (hm : method = "std" ∨ method = "minmax" ∨ method = "maxabs") :
    scale df none method = Except.ok
      (DF.mk (df.cols.map (fun p => (p.1, scaleColFit method p.2))),
       df.cols.filterMap (fun p => match p.2 with
         | Col.num cs0 => some (p.1, (fitTransform method cs0).2)
         | Col.cat _ => none)) := by
  rw [scale, if_pos hm]
  simp [falsyDict, scaleCols_create, Except.map]

theorem scale_fit_col? (df : DF ℝ) (method : String) (f : String) :
    findCol? (df.cols.map (fun p => (p.1, scaleColFit method p.2))) f =
      (df.col? f).map (scaleColFit method) :=
  findCol?_mapCols (fun _ c => scaleColFit method c) df.cols f

theorem remove_outliers_names (df : DF ℝ) (sigma : ℝ) :
    (remove_outliers df sigma).names = df.names :=
  colNames_mapCols (fun _ c => outlierFilterCol sigma c) df.cols

theorem remove_outliers_col? (df : DF ℝ) (sigma : ℝ) (f : String) :
    (remove_outliers df sigma).col? f = (df.col? f).map (outlierFilterCol sigma) :=
  findCol?_mapCols (fun _ c => outlierFilterCol sigma c) df.cols f

/-- C5.  For the `std` method, fitting records `[mean, std]` for each
numerical column, transforms each value `x` to `(x - mean) / std`, and when
the standard deviation is non-zero the inverse affine map `x' * std + mean`
reconstructs the original value exactly. -/
theorem scale_std_fit_roundtrip (df : DF ℝ) (f : String) (cs : List (Option ℝ))
    (hf : df.col? f = some (Col.num cs)) (hstd : colStd cs ≠ 0) :
    ∃ df' sp, scale df none "std" = Except.ok (df', sp) ∧
      lookup? sp f = some (colMean cs, colStd cs) ∧
      df'.col? f = some (Col.num (cs.map (Option.map (fun x =>
        (x - colMean cs) / colStd cs)))) ∧
      ∀ x : ℝ, (x - colMean cs) / colStd cs * colStd cs + colMean cs = x := by
  refine ⟨_, _, scale_fit_eq df "std" (Or.inl rfl), ?_, ?_, ?_⟩
  · rw [lookup?_fitParams "std" df.cols f cs hf, fitTransform_std]
  · show findCol? (df.cols.map (fun p => (p.1, scaleColFit "std" p.2))) f = _
    rw [scale_fit_col?, hf]
    simp [scaleColFit, fitTransform_std]
  · intro x
    rw [div_mul_cancel₀ _ hstd, sub_add_cancel]

theorem scale_std_fit_roundtrip_witness :
    colStd [some (1:ℝ), some 3] ≠ 0 ∧
    (∃ df' sp, scale (DF.mk [("x", Col.num [some (1:ℝ), some 3])]) none "std" =
        Except.ok (df', sp) ∧
      lookup? sp "x" = some (colMean [some (1:ℝ), some 3], colStd [some (1:ℝ), some 3]) ∧
      df'.col? "x" = some (Col.num ([some (1:ℝ), some 3].map (Option.map (fun x =>
        (x - colMean [some (1:ℝ), some 3]) / colStd [some (1:ℝ), some 3])))) ∧
      ∀ x : ℝ, (x - colMean [some (1:ℝ), some 3]) / colStd [some (1:ℝ), some 3] *
        colStd [some (1:ℝ), some 3] + colMean [some (1:ℝ), some 3] = x) := by
  have hvar : colVar [some (1:ℝ), some 3] = 2 := by
    simp only [colVar, colMean, present, List.sum_cons, List.sum_nil, List.length, List.map]
    norm_num
  have hstd : colStd [some (1:ℝ), some 3] ≠ 0 := by
    rw [colStd, Real.sqrt_ne_zero', hvar]
    norm_num
  exact ⟨hstd, scale_std_fit_roundtrip _ "x" _ rfl hstd⟩

/-- C7.  `remove_outliers` keeps the column set and the row count, leaves
categorical columns untouched, and blanks a numerical cell `x` exactly when
its absolute deviation from the column mean exceeds `sigma` times the column
standard deviation, each column with its own freshly computed statistics. -/
theorem remove_outliers_blanks_iff (df : DF ℝ) (sigma : ℝ) (f : String) (cs : List (Option ℝ))
    (hf : df.col? f = some (Col.num cs)) :
    (remove_outliers df sigma).names = df.names ∧
    (∀ g ds, df.col? g = some (Col.cat ds) →
      (remove_outliers df sigma).col? g = some (Col.cat ds)) ∧
    ∃ cs' : List (Option ℝ), (remove_outliers df sigma).col? f = some (Col.num cs') ∧
      cs'.length = cs.length ∧
      (∀ (i : ℕ) (x : ℝ), cs[i]? = some (some x) →
        (cs'[i]? = some none ↔ sigma * colStd cs < |x - colMean cs|)) ∧
      (∀ (i : ℕ) (x : ℝ), cs[i]? = some (some x) → |x - colMean cs| ≤ sigma * colStd cs →
        cs'[i]? = some (some x)) ∧
      (∀ i : ℕ, cs[i]? = some none → cs'[i]? = some none) := by
  refine ⟨remove_outliers_names df sigma, ?_, ?_⟩
  · intro g ds hg
    rw [remove_outliers_col?, hg]
    rfl
  · refine ⟨cs.map (fun o => o.bind (fun x =>
      if |x - colMean cs| ≤ sigma * colStd cs then some x else none)), ?_, by simp, ?_, ?_, ?_⟩
    · rw [remove_outliers_col?, hf]
      rfl
    · intro i x hi
      rw [List.getElem?_map, hi]
      by_cases hcond : |x - colMean cs| ≤ sigma * colStd cs
      · simp only [Option.map_some', Option.some_bind, if_pos hcond]
        exact iff_of_false (by simp) (not_lt.mpr hcond)
      · simp only [Option.map_some', Option.some_bind, if_neg hcond]
        exact iff_of_true trivial (not_le.mp hcond)
    · intro i x hi hle
      rw [List.getElem?_map, hi]
      simp [hle]
    · intro i hi
      rw [List.getElem?_map, hi]
      rfl

theorem remove_outliers_blanks_iff_witness :
    ((DF.mk [("v", Col.num [some (1:ℝ), some 2, some 3, some 4, some 100])]).col? "v" =
      some (Col.num [some (1:ℝ), some 2, some 3, some 4, some 100])) ∧
    ∃ cs' : List (Option ℝ), (remove_outliers
        (DF.mk [("v", Col.num [some (1:ℝ), some 2, some 3, some 4, some 100])]) 1).col? "v" =
          some (Col.num cs') ∧
      cs'[4]? = some none ∧ cs'[0]? = some (some 1) := by
  have hf : (DF.mk [("v", Col.num [some (1:ℝ), some 2, some 3, some 4, some 100])]).col? "v" =
      some (Col.num [some (1:ℝ), some 2, some 3, some 4, some 100]) := rfl
  obtain ⟨-, -, cs', hcol, -, hiff, hkeep, -⟩ :=
    remove_outliers_blanks_iff _ 1 "v" _ hf
  have hm : colMean [some (1:ℝ), some 2, some 3, some 4, some 100] = 22 := by
    simp only [colMean, present, List.sum_cons, List.sum_nil, List.length]
    norm_num
  have hv : colVar [some (1:ℝ), some 2, some 3, some 4, some 100] = 1902.5 := by
    simp only [colVar, colMean, present, List.sum_cons, List.sum_nil, List.length, List.map]
    norm_num
  refine ⟨hf, cs', hcol, ?_, ?_⟩
  · refine (hiff 4 100 rfl).mpr ?_
    rw [hm, colStd, hv, one_mul]
    have h78 : |(100:ℝ) - 22| = 78 := by norm_num
    rw [h78, Real.sqrt_lt' (by norm_num : (0:ℝ) < 78)]
    norm_num
  · refine hkeep 0 1 rfl ?_
    rw [hm, colStd, hv, one_mul]
    have h21 : |(1:ℝ) - 22| = 21 := by norm_num
    rw [h21, Real.le_sqrt' (by norm_num : (0:ℝ) < 21)]
    norm_num

/-- C6 (amended).  `scale` and `remove_outliers` take no target argument and
transform every numerical column alike: a numerical target column is rescaled
and outlier-blanked exactly as a numerical feature column. -/
theorem scale_outliers_transform_every_numeric (df : DF ℝ) (sigma : ℝ) (f : String)
    (cs : List (Option ℝ)) (hf : df.col? f = some (Col.num cs)) :
    (remove_outliers df sigma).col? f = some (Col.num (cs.map (fun o => o.bind (fun x =>
      if |x - colMean cs| ≤ sigma * colStd cs then some x else none)))) ∧
    (∀ method, method = "std" ∨ method = "minmax" ∨ method = "maxabs" →
      ∃ df' sp, scale df none method = Except.ok (df', sp) ∧
        df'.col? f = some (Col.num (fitTransform method cs).1)) := by
  constructor
  · rw [remove_outliers_col?, hf]
    rfl
  · intro method hm
    refine ⟨_, _, scale_fit_eq df method hm, ?_⟩
    show findCol? (df.cols.map (fun p => (p.1, scaleColFit method p.2))) f = _
    rw [scale_fit_col?, hf]
    rfl

/-- C6 (counterexample).  On a table whose only column is the numerical target
`y` with values `[0, 2]`, minmax scaling rewrites the column to `[0, 1]` and
`remove_outliers` with `sigma = 0` blanks both cells: neither transform leaves
a numerical target column unchanged. -/
theorem target_not_exempt_counterexample :
    scale (DF.mk [("y", Col.num [some (0:ℝ), some 2])]) none "minmax" =
      Except.ok (DF.mk [("y", Col.num [some (0:ℝ), some 1])], [("y", ((0:ℝ), 2))]) ∧
    remove_outliers (DF.mk [("y", Col.num [some (0:ℝ), some 2])]) 0 =
      DF.mk [("y", Col.num [(none : Option ℝ), none])] ∧
    DF.mk [("y", Col.num [some (0:ℝ), some 1])] ≠
      DF.mk [("y", Col.num [some (0:ℝ), some 2])] ∧
    DF.mk [("y", Col.num [(none : Option ℝ), none])] ≠
      DF.mk [("y", Col.num [some (0:ℝ), some 2])] := by
  have hmin : colMin [some (0:ℝ), some 2] = 0 := by
    simp only [colMin, present, List.foldl]
    norm_num [min_def]
  have hmax : colMax [some (0:ℝ), some 2] = 2 := by
    simp only [colMax, present, List.foldl]
    norm_num [max_def]
  have hmean : colMean [some (0:ℝ), some 2] = 1 := by
    simp only [colMean, present, List.sum_cons, List.sum_nil, List.length]
    norm_num
  refine ⟨?_, ?_, ?_, ?_⟩
  · rw [scale_fit_eq _ "minmax" (Or.inr (Or.inl rfl))]
    simp only [List.map_cons, List.map_nil, List.filterMap_cons, List.filterMap_nil,
      scaleColFit, fitTransform_minmax, hmin, hmax]
    norm_num
  · rw [remove_outliers]
    simp only [List.map_cons, List.map_nil, outlierFilterCol, hmean, colStd]
    norm_num
  · intro h
    have h2 := congrArg DF.cols h
    simp at h2
  · intro h
    have h2 := congrArg DF.cols h
    simp at h2

theorem scale_outliers_transform_every_numeric_witness :
    ((DF.mk [("y", Col.num [some (0:ℝ), some 2])]).col? "y" =
      some (Col.num [some (0:ℝ), some 2])) ∧
    ((remove_outliers (DF.mk [("y", Col.num [some (0:ℝ), some 2])]) 0).col? "y" =
      some (Col.num ([some (0:ℝ), some 2].map (fun o => o.bind (fun x =>
        if |x - colMean [some (0:ℝ), some 2]| ≤
            0 * colStd [some (0:ℝ), some 2] then some x else none))))) ∧
    (∃ df' sp, scale (DF.mk [("y", Col.num [some (0:ℝ), some 2])]) none "minmax" =
        Except.ok (df', sp) ∧
      df'.col? "y" = some (Col.num (fitTransform "minmax" [some (0:ℝ), some 2]).1)) := by
  obtain ⟨h1, h2⟩ := scale_outliers_transform_every_numeric
    (DF.mk [("y", Col.num [some (0:ℝ), some 2])]) 0 "y" [some (0:ℝ), some 2] rfl
  exact ⟨rfl, h1, h2 "minmax" (Or.inr (Or.inl rfl))⟩

/-- C1 (amended).  For the `std` and `minmax` methods, apply mode computes the
same affine transform as fit mode with the same recorded statistics, so
fitting a table and applying the returned parameters to the same raw values
reproduces the fitted values.  For `maxabs`, apply mode instead computes the
inverse affine map `x ↦ 0.5 * (x * (max - min) + max + min)` of the fit
formula: applying the recorded parameters to the fitted values returns the
original raw values, not the fitted ones. -/
theorem scale_apply_fit_consistency (cells : List (Option ℝ))
    (hm : colMin cells ≠ colMax cells) :
    applyTransform "std" (fitTransform "std" cells).2 cells = (fitTransform "std" cells).1 ∧
    applyTransform "minmax" (fitTransform "minmax" cells).2 cells =
      (fitTransform "minmax" cells).1 ∧
    applyTransform "maxabs" (fitTransform "maxabs" cells).2 ((fitTransform "maxabs" cells).1) =
      cells := by
  refine ⟨by simp [fitTransform, applyTransform], by simp [fitTransform, applyTransform], ?_⟩
  rw [fitTransform_maxabs, applyTransform_maxabs]
  have hd : colMax cells - colMin cells ≠ 0 := sub_ne_zero.mpr (Ne.symm hm)
  rw [List.map_map]
  have key : ∀ o : Option ℝ,
      (Option.map (fun x => 0.5 * (x * (colMax cells - colMin cells) +
          colMax cells + colMin cells)) ∘
        Option.map (fun x => 2 * (x - colMin cells) / (colMax cells - colMin cells) - 1)) o
        = o := by
    intro o
    cases o with
    | none => rfl
    | some x =>
        simp only [Function.comp_apply, Option.map_some', Option.some.injEq]
        field_simp
        ring
  rw [List.map_congr_left (fun o _ => key o)]
  simp

/-- C1 (counterexample).  Fitting the single-column table `[0, 2]` with
`maxabs` yields values `[-1, 1]` and records `[min, max] = [0, 2]`; applying
those recorded parameters to the same table yields `[1, 3]`, not the fitted
values: apply mode does not compute the fit-time `[-1, 1]` formula. -/
theorem scale_maxabs_replay_counterexample :
    scale (DF.mk [("x", Col.num [some (0:ℝ), some 2])]) none "maxabs" =
      Except.ok (DF.mk [("x", Col.num [some (-1:ℝ), some 1])], [("x", ((0:ℝ), 2))]) ∧
    scale (DF.mk [("x", Col.num [some (0:ℝ), some 2])]) (some [("x", ((0:ℝ), 2))]) "maxabs" =
      Except.ok (DF.mk [("x", Col.num [some (1:ℝ), some 3])], [("x", ((0:ℝ), 2))]) ∧
    DF.mk [("x", Col.num [some (1:ℝ), some 3])] ≠
      DF.mk [("x", Col.num [some (-1:ℝ), some 1])] := by
  have hmin : colMin [some (0:ℝ), some 2] = 0 := by
    simp only [colMin, present, List.foldl]
    norm_num [min_def]
  have hmax : colMax [some (0:ℝ), some 2] = 2 := by
    simp only [colMax, present, List.foldl]
    norm_num [max_def]
  refine ⟨?_, ?_, ?_⟩
  · rw [scale_fit_eq _ "maxabs" (Or.inr (Or.inr rfl))]
    simp only [List.map_cons, List.map_nil, List.filterMap_cons, List.filterMap_nil,
      scaleColFit, fitTransform_maxabs, hmin, hmax]
    norm_num
  · have hred : scale (DF.mk [("x", Col.num [some (0:ℝ), some 2])])
        (some [("x", ((0:ℝ), 2))]) "maxabs" =
        Except.ok (DF.mk [("x",
          Col.num (applyTransform "maxabs" ((0:ℝ), 2) [some (0:ℝ), some 2]))],
          [("x", ((0:ℝ), 2))]) := rfl
    rw [hred, applyTransform_maxabs]
    norm_num
  · intro h
    have h2 := congrArg DF.cols h
    simp at h2

theorem scale_apply_fit_consistency_witness :
    colMin [some (0:ℝ), some 2] ≠ colMax [some (0:ℝ), some 2] ∧
    (applyTransform "std" (fitTransform "std" [some (0:ℝ), some 2]).2 [some (0:ℝ), some 2] =
      (fitTransform "std" [some (0:ℝ), some 2]).1 ∧
    applyTransform "minmax" (fitTransform "minmax" [some (0:ℝ), some 2]).2
      [some (0:ℝ), some 2] = (fitTransform "minmax" [some (0:ℝ), some 2]).1 ∧
    applyTransform "maxabs" (fitTransform "maxabs" [some (0:ℝ), some 2]).2
      ((fitTransform "maxabs" [some (0:ℝ), some 2]).1) = [some (0:ℝ), some 2]) := by
  have h1 : colMin [some (0:ℝ), some 2] = 0 := by
    simp only [colMin, present, List.foldl]
    norm_num [min_def]
  have h2 : colMax [some (0:ℝ), some 2] = 2 := by
    simp only [colMax, present, List.foldl]
    norm_num [max_def]
  have hm : colMin [some (0:ℝ), some 2] ≠ colMax [some (0:ℝ), some 2] := by
    rw [h1, h2]
    norm_num
  exact ⟨hm, scale_apply_fit_consistency _ hm⟩

/-! ### Lemmas for `remove_categories` -/

/-- Whether a column is categorical. -/
def Col.isCat {K : Type} : Col K → Bool
  | Col.cat _ => true
  | Col.num _ => false

/-- The cells of a categorical column (empty for a numerical column). -/
def Col.catCells {K : Type} : Col K → List (Option String)
  | Col.cat cs => cs
  | Col.num _ => []

/-- Closed form of one fitted column of `remove_categories`. -/
def fitCatCol {K : Type} [LinearOrderedField K] (threshold : K) (target : List String)
    (n : String) : Col K → Col K
  | Col.num cs => Col.num cs
  | Col.cat cs =>
      if n ∈ target then Col.cat cs
      else Col.cat (cs.map (fun o => o.bind (fun v =>
        if v ∈ lowFreqCats threshold cs then none else some v)))

/-- The fit loop of `remove_categories` transforms each column independently
and records the retained categories of the categorical non-target columns in
column order. -/
theorem fitCatsCols_eq {K : Type} [LinearOrderedField K] (threshold : K)
    (target : List String) (cols : List (String × Col K)) :
    fitCatsCols threshold target cols =
      (cols.map (fun p => (p.1, fitCatCol threshold target p.1 p.2)),
       cols.filterMap (fun p => match p.2 with
         | Col.cat cs =>
             if p.1 ∈ target then none
             else some (p.1, categoriesOf (cs.map (fun o => o.bind (fun v =>
               if v ∈ lowFreqCats threshold cs then none else some v))))
         | Col.num _ => none)) := by
  induction cols with
  | nil => rfl
  | cons p rest ih =>
      obtain ⟨n, c⟩ := p
      cases c with
      | num cs => simp [fitCatsCols, ih, fitCatCol]
      | cat cs =>
          by_cases htg : n ∈ target <;>
            simp [fitCatsCols, ih, fitCatCol, htg]

/-- The vocabulary entry recorded by fit mode for the first column named `f`
when that column is categorical and not a target. -/
theorem lookup?_fitCatsDict {K : Type} [LinearOrderedField K] (threshold : K)
    (target : List String) (cols : List (String × Col K)) (f : String)
    (cs : List (Option String)) (hf : findCol? cols f = some (Col.cat cs)) (ht : f ∉ target) :
    lookup? (cols.filterMap (fun p => match p.2 with
      | Col.cat cs0 =>
          if p.1 ∈ target then none
          else some (p.1, categoriesOf (cs0.map (fun o => o.bind (fun v =>
            if v ∈ lowFreqCats threshold cs0 then none else some v))))
      | Col.num _ => none)) f =
      some (categoriesOf (cs.map (fun o => o.bind (fun v =>
        if v ∈ lowFreqCats threshold cs then none else some v)))) := by
  induction cols with
  | nil => simp [findCol?] at hf
  | cons p rest ih =>
      obtain ⟨n, c⟩ := p
      rw [findCol?_cons] at hf
      by_cases hn : n = f
      · rw [if_pos hn] at hf
        cases c with
        | num cs0 => exact absurd hf (by simp)
        | cat cs0 =>
            have hcs : cs0 = cs := by
              injection hf with h
              injection h
            subst hcs
            subst hn
            simp only [List.filterMap_cons, if_neg ht]
            simp [lookup?_cons]
      · rw [if_neg hn] at hf
        cases c with
        | num cs0 =>
            simp only [List.filterMap_cons]
            exact ih hf
        | cat cs0 =>
            by_cases htg : n ∈ target
            · simp only [List.filterMap_cons, if_pos htg]
              exact ih hf
            · simp only [List.filterMap_cons, if_neg htg]
              rw [lookup?_cons, if_neg hn]
              exact ih hf

theorem mem_present_map_bind {cs : List (Option String)} {g : String → Option String}
    {v : String} :
    v ∈ present (cs.map (fun o => o.bind g)) ↔ ∃ w ∈ present cs, g w = some v := by
  induction cs with
  | nil => simp [present]
  | cons o rest ih =>
      cases o with
      | none => simpa [present] using ih
      | some w =>
          cases hg : g w with
          | none =>
              simp only [List.map_cons, Option.some_bind, hg, present]
              rw [ih]
              constructor
              · rintro ⟨u, hu, hgu⟩
                exact ⟨u, by simp [present, hu], hgu⟩
              · rintro ⟨u, hu, hgu⟩
                rcases (by simpa [present] using hu : u = w ∨ u ∈ present rest) with h | h
                · exact absurd hgu (by rw [h, hg]; simp)
                · exact ⟨u, h, hgu⟩
          | some x =>
              simp only [List.map_cons, Option.some_bind, hg, present]
              constructor
              · intro hmem
                rcases (by simpa using hmem : v = x ∨ v ∈ present (rest.map (fun o => o.bind g)))
                    with h | h
                · exact ⟨w, by simp [present], by rw [hg, h]⟩
                · obtain ⟨u, hu, hgu⟩ := ih.mp h
                  exact ⟨u, by simp [present, hu], hgu⟩
              · rintro ⟨u, hu, hgu⟩
                rcases (by simpa [present] using hu : u = w ∨ u ∈ present rest) with h | h
                · subst h
                  rw [hg] at hgu
                  injection hgu with h2
                  simp [h2]
                · exact List.mem_cons_of_mem _ (ih.mpr ⟨u, h, hgu⟩)

theorem mem_lowFreqCats {K : Type} [LinearOrderedField K] {threshold : K}
    {cs : List (Option String)} {v : String} :
    v ∈ lowFreqCats threshold cs ↔ v ∈ present cs ∧ (countVal cs v : K) < threshold := by
  simp [lowFreqCats, List.mem_filter, mem_categoriesOf]

/-- C3.  In fit mode, for a categorical non-target column, a label is
collapsed to Missing exactly when its count is strictly below
`ratio * row_count`, and the recorded vocabulary retains exactly the observed
labels whose count is not strictly below the threshold: a label whose count
equals the threshold is retained. -/
theorem remove_categories_fit_threshold {K : Type} [LinearOrderedField K] (df : DF K)
    (target : List String) (ratio : K) (f : String) (cs : List (Option String))
    (hf : df.col? f = some (Col.cat cs)) (ht : f ∉ target) :
    ∃ df' D, remove_categories df target ratio none = Except.ok (df', D) ∧
      df'.col? f = some (Col.cat (cs.map (fun o => o.bind (fun v =>
        if (countVal cs v : K) < (df.nrows : K) * ratio then none else some v)))) ∧
      ∃ voc, lookup? D f = some voc ∧
        ∀ v, v ∈ voc ↔
          (v ∈ present cs ∧ ¬ (countVal cs v : K) < (df.nrows : K) * ratio) := by
  have hcong : cs.map (fun o => o.bind (fun v =>
      if v ∈ lowFreqCats ((df.nrows : K) * ratio) cs then none else some v)) =
      cs.map (fun o => o.bind (fun v =>
        if (countVal cs v : K) < (df.nrows : K) * ratio then none else some v)) := by
    refine map_bind_congr ?_
    intro v hv
    by_cases hlt : (countVal cs v : K) < (df.nrows : K) * ratio
    · rw [if_pos (mem_lowFreqCats.mpr ⟨hv, hlt⟩), if_pos hlt]
    · rw [if_neg (fun hmem => hlt (mem_lowFreqCats.mp hmem).2), if_neg hlt]
  refine ⟨DF.mk ((fitCatsCols ((df.nrows : K) * ratio) target df.cols).1),
    (fitCatsCols ((df.nrows : K) * ratio) target df.cols).2, rfl, ?_, ?_⟩
  · show findCol? ((fitCatsCols ((df.nrows : K) * ratio) target df.cols).1) f = _
    rw [fitCatsCols_eq]
    have := findCol?_mapCols
      (fun n c => fitCatCol ((df.nrows : K) * ratio) target n c) df.cols f
    rw [this]
    rw [show findCol? df.cols f = some (Col.cat cs) from hf]
    simp only [Option.map_some']
    rw [fitCatCol]
    rw [if_neg ht, hcong]
  · rw [fitCatsCols_eq]
    refine ⟨_, lookup?_fitCatsDict _ target df.cols f cs hf ht, ?_⟩
    intro v
    rw [mem_categoriesOf, mem_present_map_bind]
    constructor
    · rintro ⟨w, hw, hgw⟩
      by_cases hmem : w ∈ lowFreqCats ((df.nrows : K) * ratio) cs
      · rw [if_pos hmem] at hgw
        exact absurd hgw (by simp)
      · rw [if_neg hmem] at hgw
        injection hgw with hwv
        subst hwv
        exact ⟨hw, fun hlt => hmem (mem_lowFreqCats.mpr ⟨hw, hlt⟩)⟩
    · rintro ⟨hv, hnlt⟩
      refine ⟨v, hv, ?_⟩
      rw [if_neg (fun hmem => hnlt (mem_lowFreqCats.mp hmem).2)]

/-- The ten-row city column of the specification example: nine `A`, one `B`. -/
def cityCells : List (Option String) :=
  [some "A", some "A", some "A", some "A", some "A",
   some "A", some "A", some "A", some "A", some "B"]

/-- One-column table used to instantiate the threshold boundary example. -/
def cityDF : DF ℚ := DF.mk [("city", Col.cat cityCells)]

theorem remove_categories_fit_threshold_witness :
    (∃ df' D voc, remove_categories cityDF [] ((1:ℚ)/10) none = Except.ok (df', D) ∧
        lookup? D "city" = some voc ∧ "B" ∈ voc) ∧
    (∃ df' D voc, remove_categories cityDF [] ((1:ℚ)/5) none = Except.ok (df', D) ∧
        lookup? D "city" = some voc ∧ "B" ∉ voc) := by
  obtain ⟨df1, D1, hok1, -, voc1, hl1, hiff1⟩ :=
    remove_categories_fit_threshold (K := ℚ) cityDF [] (1/10) "city" cityCells rfl
      (by decide)
  obtain ⟨df2, D2, hok2, -, voc2, hl2, hiff2⟩ :=
    remove_categories_fit_threshold (K := ℚ) cityDF [] (1/5) "city" cityCells rfl
      (by decide)
  have hcount : countVal cityCells "B" = 1 := by decide
  have hnrows : cityDF.nrows = 10 := rfl
  refine ⟨⟨df1, D1, voc1, hok1, hl1, ?_⟩, ⟨df2, D2, voc2, hok2, hl2, ?_⟩⟩
  · refine (hiff1 "B").mpr ⟨by decide, ?_⟩
    rw [hcount, hnrows]
    norm_num
  · intro hmem
    refine ((hiff2 "B").mp hmem).2 ?_
    rw [hcount, hnrows]
    norm_num

/-- Forcing a column to a vocabulary that already contains all its observed
labels changes no cell. -/
theorem setCategoriesCol_id (voc : List String) (cs : List (Option String))
    (h : ∀ v ∈ present cs, v ∈ voc) : setCategoriesCol voc cs = cs := by
  induction cs with
  | nil => rfl
  | cons o rest ih =>
      have hrest : ∀ v ∈ present rest, v ∈ voc := by
        intro v hv
        refine h v ?_
        cases o <;> simp [present, hv]
      cases o with
      | none =>
          show none :: setCategoriesCol voc rest = none :: rest
          rw [ih hrest]
      | some v =>
          have hv : v ∈ voc := h v (by simp [present])
          show (if v ∈ voc then some v else none) :: setCategoriesCol voc rest = some v :: rest
          rw [if_pos hv, ih hrest]

/-- The apply loop of `remove_categories` is the identity on a table whose
categorical non-target columns are covered by the vocabulary. -/
theorem applyCatsCols_id {K : Type} (D : CatDict) (target : List String)
    (cols : List (String × Col K))
    (hcov : ∀ p ∈ cols, p.2.isCat = true → p.1 ∉ target →
      (lookup? D p.1).isSome = true ∧
      ∀ v ∈ present p.2.catCells, v ∈ (lookup? D p.1).getD []) :
    applyCatsCols D target cols = Except.ok cols := by
  induction cols with
  | nil => rfl
  | cons p rest ih =>
      obtain ⟨n, c⟩ := p
      have hrest := fun q hq => hcov q (List.mem_cons_of_mem _ hq)
      cases c with
      | num cs =>
          rw [applyCatsCols, ih hrest]
          rfl
      | cat cs =>
          rw [applyCatsCols]
          by_cases htg : n ∈ target
          · rw [if_pos htg, ih hrest]
            rfl
          · rw [if_neg htg]
            obtain ⟨hsome, hval⟩ := hcov (n, Col.cat cs) (List.mem_cons_self _ _) rfl htg
            obtain ⟨vf, hvf⟩ := Option.isSome_iff_exists.mp hsome
            rw [hvf]
            simp only []
            have hid : setCategoriesCol vf cs = cs := by
              refine setCategoriesCol_id _ _ ?_
              intro v hv
              have := hval v hv
              rwa [hvf, Option.getD_some] at this
            rw [hid, ih hrest]
            rfl

/-- C4.  Apply mode with a non-empty vocabulary `V` covering the table's
categorical non-target values is a no-op on the data: the table comes back
with every cell unchanged together with `V` itself; the branch never consults
the new table's frequencies (it is pointwise per cell). -/
theorem remove_categories_apply_noop {K : Type} [LinearOrderedField K] (df : DF K)
    (target : List String) (ratio : K) (D : CatDict) (hne : D ≠ [])
    (hcov : ∀ p ∈ df.cols, p.2.isCat = true → p.1 ∉ target →
      (lookup? D p.1).isSome = true ∧
      ∀ v ∈ present p.2.catCells, v ∈ (lookup? D p.1).getD []) :
    remove_categories df target ratio (some D) = Except.ok (df, D) := by
  rw [remove_categories]
  rw [if_neg (by simp [falsyDict, List.isEmpty_iff, hne])]
  rw [show (some D).getD [] = D from rfl]
  rw [applyCatsCols_id D target df.cols hcov]
  rfl

theorem remove_categories_apply_noop_witness :
    ([("c", ["A", "B"])] : CatDict) ≠ [] ∧
    remove_categories (DF.mk [("c", Col.cat [some "A", some "B", none])] : DF ℚ) []
      ((1:ℚ)/100) (some [("c", ["A", "B"])]) =
      Except.ok ((DF.mk [("c", Col.cat [some "A", some "B", none])] : DF ℚ),
        [("c", ["A", "B"])]) := by
  have hne : ([("c", ["A", "B"])] : CatDict) ≠ [] := by decide
  exact ⟨hne, remove_categories_apply_noop _ [] _ _ hne (by decide)⟩

/-! ### Lemmas for `fill_simple` -/

theorem exists_count_max (f : String → ℕ) :
    ∀ l : List String, l ≠ [] → ∃ v ∈ l, ∀ w ∈ l, f w ≤ f v := by
  intro l
  induction l with
  | nil => intro h; cases h rfl
  | cons a rest ih =>
      intro _
      by_cases hr : rest = []
      · subst hr
        exact ⟨a, by simp, by simp⟩
      · obtain ⟨v, hv, hmax⟩ := ih hr
        by_cases hav : f a ≤ f v
        · refine ⟨v, List.mem_cons_of_mem _ hv, ?_⟩
          intro w hw
          rcases List.mem_cons.mp hw with h | h
          · exact h ▸ hav
          · exact hmax w h
        · refine ⟨a, List.mem_cons_self _ _, ?_⟩
          intro w hw
          rcases List.mem_cons.mp hw with h | h
          · exact h ▸ le_refl _
          · exact le_trans (hmax w h) (le_of_not_le hav)

theorem find?_first_sorted (p : String → Bool) (m v : String) :
    ∀ l : List String, List.Sorted labelLe l → l.find? p = some m → v ∈ l →
      p v = true → labelLe m v := by
  intro l
  induction l with
  | nil => intro _ hf; simp at hf
  | cons a rest ih =>
      intro hs hf hv hpv
      by_cases hpa : p a = true
      · rw [List.find?_cons_of_pos _ hpa] at hf
        injection hf with h
        subst h
        rcases List.mem_cons.mp hv with h | h
        · exact h ▸ refl_of labelLe _
        · exact (List.sorted_cons.mp hs).1 v h
      · rw [List.find?_cons_of_neg _ (by simp [hpa])] at hf
        rcases List.mem_cons.mp hv with h | h
        · exact absurd hpv (h ▸ hpa)
        · exact ih (List.sorted_cons.mp hs).2 hf h hpv

theorem categoriesOf_sorted (cells : List (Option String)) :
    List.Sorted labelLe (categoriesOf cells) :=
  List.sorted_insertionSort _ _

/-- The pandas mode of a non-empty categorical column: the chosen label has
maximal count, and among the labels tying for the maximal count it is the one
coming first in the column's category ordering (hence the least label). -/
theorem colMode_spec (cells : List (Option String)) (hne : present cells ≠ []) :
    ∃ m, colMode cells = some m ∧ m ∈ present cells ∧
      (∀ v ∈ present cells, countVal cells v ≤ countVal cells m) ∧
      (∀ v ∈ present cells, countVal cells v = countVal cells m → labelLe m v) := by
  have hcne : categoriesOf cells ≠ [] := by
    intro h
    rcases hp : present cells with _ | ⟨x, xs⟩
    · exact hne hp
    · have : x ∈ categoriesOf cells := mem_categoriesOf.mpr (by rw [hp]; simp)
      rw [h] at this
      simp at this
  obtain ⟨v0, hv0, hmax0⟩ := exists_count_max (countVal cells) (categoriesOf cells) hcne
  have hsome : ((categoriesOf cells).find? (fun v =>
      decide (∀ w ∈ categoriesOf cells, countVal cells w ≤ countVal cells v))).isSome := by
    rw [List.find?_isSome]
    exact ⟨v0, hv0, by simpa using hmax0⟩
  obtain ⟨m, hm⟩ := Option.isSome_iff_exists.mp hsome
  have hmmem : m ∈ categoriesOf cells := List.mem_of_find?_eq_some hm
  have hmp : ∀ w ∈ categoriesOf cells, countVal cells w ≤ countVal cells m := by
    have := List.find?_some hm
    simpa using this
  refine ⟨m, hm, mem_categoriesOf.mp hmmem, ?_, ?_⟩
  · intro v hv
    exact hmp v (mem_categoriesOf.mpr hv)
  · intro v hv htie
    refine find?_first_sorted _ m v (categoriesOf cells) (categoriesOf_sorted cells) hm
      (mem_categoriesOf.mpr hv) ?_
    simp only [decide_eq_true_eq]
    intro w hw
    exact htie ▸ hmp w hw

/-- C9.  With `missing_categorical='mode'`, every missing cell of a
categorical non-target column is filled with the column's most frequent label,
and a tie between equally frequent labels is resolved to the label coming
first in the column's underlying category ordering. -/
theorem fill_simple_mode_spec {K : Type} [LinearOrderedField K] (df : DF K)
    (target : List String) (mnum : String) (inclN : Bool) (f : String)
    (cs : List (Option String)) (hf : df.col? f = some (Col.cat cs)) (ht : f ∉ target)
    (hne : present cs ≠ []) :
    ∃ m, colMode cs = some m ∧
      (fill_simple df target mnum "mode" inclN true).col? f =
        some (Col.cat (cs.map (fun o => o.orElse (fun _ => some m)))) ∧
      m ∈ present cs ∧
      (∀ v ∈ present cs, countVal cs v ≤ countVal cs m) ∧
      (∀ v ∈ present cs, countVal cs v = countVal cs m → labelLe m v) := by
  obtain ⟨m, hm, hmem, hmax, htie⟩ := colMode_spec cs hne
  refine ⟨m, hm, ?_, hmem, hmax, htie⟩
  show findCol? (df.cols.map (fun p =>
    (p.1, fillCol target mnum "mode" inclN true p.1 p.2))) f = _
  rw [findCol?_mapCols (fun n c => fillCol target mnum "mode" inclN true n c) df.cols f]
  rw [show findCol? df.cols f = some (Col.cat cs) from hf]
  simp only [Option.map_some']
  show some (fillCol target mnum "mode" inclN true f (Col.cat cs)) = _
  rw [fillCol]
  rw [if_neg (by simp [ht])]
  rw [if_pos rfl]
  rw [hm]

/-- Table with a tied mode used to instantiate the tie-break property. -/
def tieDF : DF ℚ := DF.mk [("c", Col.cat [some "b", some "a", none, some "b", some "a"])]

theorem fill_simple_mode_spec_witness :
    present [some "b", some "a", none, some "b", some "a"] ≠ [] ∧
    ∃ m, colMode [some "b", some "a", none, some "b", some "a"] = some m ∧
      (fill_simple tieDF [] "median" "mode" true true).col? "c" =
        some (Col.cat ([some "b", some "a", none, some "b", some "a"].map
          (fun o => o.orElse (fun _ => some m)))) ∧
      m = "a" := by
  have hne : present [some "b", some "a", none, some "b", some "a"] ≠ [] := by decide
  obtain ⟨m, hm, hcol, -, -, -⟩ := fill_simple_mode_spec (K := ℚ) tieDF [] "median" true "c"
    [some "b", some "a", none, some "b", some "a"] rfl (by decide) hne
  have heval : colMode [some "b", some "a", none, some "b", some "a"] = some "a" := by decide
  have hma : m = "a" := by
    have := hm.symm.trans heval
    injection this
  exact ⟨hne, m, hm, hcol, hma⟩


/-! ### Lemmas for `replace_by_dummies` -/

theorem findCol?_append {K : Type} (l r : List (String × Col K)) (f : String) :
    findCol? (l ++ r) f =
      match findCol? l f with
      | some c => some c
      | none => findCol? r f := by
  induction l with
  | nil => simp [findCol?]
  | cons p rest ih =>
      obtain ⟨n, c⟩ := p
      rw [List.cons_append, findCol?_cons, findCol?_cons]
      by_cases hn : n = f
      · rw [if_pos hn, if_pos hn]
      · rw [if_neg hn, if_neg hn, ih]

theorem colNames_filter_name {K : Type} (g : String → Bool) (cols : List (String × Col K)) :
    colNames (cols.filter (fun p => g p.1)) = (colNames cols).filter g := by
  induction cols with
  | nil => rfl
  | cons p rest ih =>
      obtain ⟨n, c⟩ := p
      by_cases hg : g n
      · show colNames (List.filter _ ((n, c) :: rest)) = _
        rw [List.filter_cons, if_pos (by simpa using hg)]
        show n :: colNames (rest.filter _) = List.filter g (n :: colNames rest)
        rw [List.filter_cons, if_pos (by simpa using hg), ih]
      · show colNames (List.filter _ ((n, c) :: rest)) = _
        rw [List.filter_cons, if_neg (by simpa using hg)]
        show colNames (rest.filter _) = List.filter g (n :: colNames rest)
        rw [List.filter_cons, if_neg (by simpa using hg), ih]

/-- The categorical column names form a sublist of all column names. -/
theorem catNames_cols_sublist {K : Type} :
    ∀ cols : List (String × Col K), (catNames (DF.mk cols)).Sublist (colNames cols) := by
  intro cols
  induction cols with
  | nil => exact List.Sublist.refl _
  | cons p rest ih =>
      obtain ⟨n, c⟩ := p
      cases c with
      | num cs =>
          show (catNames (DF.mk rest)).Sublist (n :: colNames rest)
          exact ih.cons n
      | cat cs =>
          show (n :: catNames (DF.mk rest)).Sublist (n :: colNames rest)
          exact ih.cons₂ n

/-- With unique column names, every categorical name resolves to its
categorical column. -/
theorem findCol?_of_catName {K : Type} :
    ∀ cols : List (String × Col K), (colNames cols).Nodup →
      ∀ f ∈ catNames (DF.mk cols), ∃ cs, findCol? cols f = some (Col.cat cs) := by
  intro cols
  induction cols with
  | nil =>
      intro _ f hf
      exact absurd hf (by simp [catNames])
  | cons p rest ih =>
      intro hnd f hf
      obtain ⟨n, c⟩ := p
      have htail : (colNames rest).Nodup := (List.nodup_cons.mp hnd).2
      have hhead : n ∉ colNames rest := (List.nodup_cons.mp hnd).1
      cases c with
      | num cs =>
          have hf' : f ∈ catNames (DF.mk rest) := hf
          have hne : n ≠ f := by
            intro h
            exact hhead (h ▸ (catNames_cols_sublist rest).subset hf')
          rw [findCol?_cons, if_neg hne]
          exact ih htail f hf'
      | cat cs =>
          by_cases hn : n = f
          · exact ⟨cs, by rw [findCol?_cons, if_pos hn]⟩
          · have hf2 : f ∈ catNames (DF.mk rest) := by
              have hmem : f ∈ n :: catNames (DF.mk rest) := hf
              rcases List.mem_cons.mp hmem with h | h
              · exact absurd h.symm hn
              · exact h
            rw [findCol?_cons, if_neg hn]
            exact ih htail f hf2

/-- Sequentially dropping a list of labels filters them all out. -/
theorem foldl_dropAll {K : Type} :
    ∀ (ns : List String) (cols : List (String × Col K)),
      ns.foldl dropAll cols = cols.filter (fun p => decide (p.1 ∉ ns)) := by
  intro ns
  induction ns with
  | nil => intro cols; simp
  | cons n rest ih =>
      intro cols
      show rest.foldl dropAll (dropAll cols n) = _
      rw [ih (dropAll cols n)]
      rw [dropAll, List.filter_filter]
      refine List.filter_congr ?_
      intro p _
      by_cases h1 : p.1 = n
      · simp [h1]
      · by_cases h2 : p.1 ∈ rest <;> simp [h1, h2]

/-- Appending the missing zero columns: new names at the end, all-zero
content, other lookups unchanged. -/
theorem foldl_setColZero {K : Type} [LinearOrderedField K] (nr : ℕ) :
    ∀ (ms : List String) (cols : List (String × Col K)),
      ms.Nodup → (∀ m ∈ ms, m ∉ colNames cols) →
      colNames (ms.foldl (setColZero nr) cols) = colNames cols ++ ms ∧
      (∀ m ∈ ms, findCol? (ms.foldl (setColZero nr) cols) m =
        some (Col.num (List.replicate nr (some (0:K))))) ∧
      (∀ g, g ∉ ms → findCol? (ms.foldl (setColZero nr) cols) g = findCol? cols g) := by
  intro ms
  induction ms with
  | nil =>
      intro cols _ _
      exact ⟨by simp, by simp, fun g _ => rfl⟩
  | cons m rest ih =>
      intro cols hnd hfresh
      have hm : m ∉ colNames cols := hfresh m (List.mem_cons_self _ _)
      have hstep : setColZero nr cols m =
          cols ++ [(m, Col.num (List.replicate nr (some (0:K))))] := by
        rw [setColZero, if_neg hm]
      have hfold : (m :: rest).foldl (setColZero nr) cols =
          rest.foldl (setColZero nr)
            (cols ++ [(m, Col.num (List.replicate nr (some (0:K))))]) := by
        show rest.foldl (setColZero nr) (setColZero nr cols m) = _
        rw [hstep]
      have hnd' : rest.Nodup := (List.nodup_cons.mp hnd).2
      have hmrest : m ∉ rest := (List.nodup_cons.mp hnd).1
      have hfresh' : ∀ m' ∈ rest,
          m' ∉ colNames (cols ++ [(m, Col.num (List.replicate nr (some (0:K))))]) := by
        intro m' hm' hmem
        rw [colNames_append] at hmem
        rcases List.mem_append.mp hmem with h | h
        · exact hfresh m' (List.mem_cons_of_mem _ hm') h
        · have : m' = m := by simpa [colNames] using h
          exact hmrest (this ▸ hm')
      obtain ⟨ihnames, ihzero, ihother⟩ :=
        ih (cols ++ [(m, Col.num (List.replicate nr (some (0:K))))]) hnd' hfresh'
      rw [hfold]
      refine ⟨?_, ?_, ?_⟩
      · rw [ihnames, colNames_append]
        simp [colNames]
      · intro m' hm'
        rcases List.mem_cons.mp hm' with h | h
        · subst h
          rw [ihother m' hmrest]
          rw [findCol?_append_right hm]
          rw [findCol?_cons, if_pos rfl]
        · exact ihzero m' h
      · intro g hg
        have hgm : g ≠ m := fun h => hg (h ▸ List.mem_cons_self _ _)
        have hgrest : g ∉ rest := fun h => hg (List.mem_cons_of_mem _ h)
        rw [ihother g hgrest, findCol?_append]
        cases hc : findCol? cols g with
        | some c => rfl
        | none =>
            simp only []
            rw [findCol?_cons, if_neg (fun h => hgm h.symm)]
            rfl

theorem getCatCells_congr {K : Type} {cols cols' : List (String × Col K)} {g : String}
    (h : findCol? cols g = findCol? cols' g) : getCatCells cols g = getCatCells cols' g := by
  rw [getCatCells, getCatCells, h]

theorem flatMap_congr {α β : Type} {l : List α} {g₁ g₂ : α → List β}
    (h : ∀ x ∈ l, g₁ x = g₂ x) : l.flatMap g₁ = l.flatMap g₂ := by
  induction l with
  | nil => rfl
  | cons a rest ih =>
      rw [List.flatMap_cons, List.flatMap_cons, h a (List.mem_cons_self _ _),
        ih (fun x hx => h x (List.mem_cons_of_mem _ hx))]

/-- The expansion loop of `replace_by_dummies` in closed form: under fresh
indicator names it removes the processed categorical columns, appends all
their indicator columns at the end, and accumulates the indicator names. -/
theorem dummyStep_foldl {K : Type} [LinearOrderedField K] (b : Bool) :
    ∀ (fs : List String) (cols : List (String × Col K)) (acc : List String),
      fs.Nodup →
      (∀ f ∈ fs, ∃ cs, findCol? cols f = some (Col.cat cs)) →
      (∀ f ∈ fs, ∀ d ∈ colNames (get_dummies (K := K) f (getCatCells cols f) b),
        d ∉ colNames cols) →
      (fs.flatMap (fun f => colNames (get_dummies (K := K) f (getCatCells cols f) b))).Nodup →
      fs.foldl (dummyStep b) (cols, acc) =
        (cols.filter (fun p => decide (p.1 ∉ fs)) ++
          fs.flatMap (fun f => get_dummies f (getCatCells cols f) b),
         acc ++ fs.flatMap (fun f =>
           colNames (get_dummies (K := K) f (getCatCells cols f) b))) := by
  intro fs
  induction fs with
  | nil =>
      intro cols acc _ _ _ _
      simp
  | cons f fs' ih =>
      intro cols acc hnd hpres hfresh hglobal
      have hfD : ∀ d ∈ colNames (get_dummies (K := K) f (getCatCells cols f) b),
          d ∉ colNames cols := hfresh f (List.mem_cons_self _ _)
      have hfc : f ∈ colNames cols := by
        obtain ⟨cs, hcs⟩ := hpres f (List.mem_cons_self _ _)
        exact findCol?_isSome_mem hcs
      have hDne : ∀ p ∈ get_dummies (K := K) f (getCatCells cols f) b, p.1 ≠ f := by
        intro p hp h
        exact hfD p.1 (List.mem_map_of_mem Prod.fst hp) (h ▸ hfc)
      have hstep : dummyStep b (cols, acc) f =
          (dropAll cols f ++ get_dummies (K := K) f (getCatCells cols f) b,
           acc ++ colNames (get_dummies (K := K) f (getCatCells cols f) b)) := by
        rw [dummyStep]
        simp only [Prod.mk.injEq]
        refine ⟨?_, trivial⟩
        rw [dropAll, List.filter_append]
        congr 1
        rw [List.filter_eq_self]
        intro p hp
        simpa using hDne p hp
      have htrans : ∀ g ∈ fs',
          findCol? (dropAll cols f ++ get_dummies (K := K) f (getCatCells cols f) b) g =
            findCol? cols g := by
        intro g hg
        have hgf : g ≠ f := by
          intro h
          subst h
          exact (List.nodup_cons.mp hnd).1 hg
        obtain ⟨cs, hcs⟩ := hpres g (List.mem_cons_of_mem _ hg)
        rw [findCol?_append, findCol?_dropAll_ne cols hgf, hcs]
      have hgc : ∀ g ∈ fs',
          getCatCells (dropAll cols f ++ get_dummies (K := K) f (getCatCells cols f) b) g =
            getCatCells cols g := by
        intro g hg
        exact getCatCells_congr (htrans g hg)
      have hglobal' :
          ((colNames (get_dummies (K := K) f (getCatCells cols f) b)) ++
            fs'.flatMap (fun g => colNames (get_dummies (K := K) g (getCatCells cols g) b))).Nodup := by
        simpa [List.flatMap_cons] using hglobal
      have hdisj := (List.nodup_append.mp hglobal').2.2
      have hpres' : ∀ g ∈ fs', ∃ cs,
          findCol? (dropAll cols f ++ get_dummies (K := K) f (getCatCells cols f) b) g =
            some (Col.cat cs) := by
        intro g hg
        obtain ⟨cs, hcs⟩ := hpres g (List.mem_cons_of_mem _ hg)
        exact ⟨cs, by rw [htrans g hg, hcs]⟩
      have hfresh' : ∀ g ∈ fs', ∀ d ∈ colNames (get_dummies (K := K) g
          (getCatCells (dropAll cols f ++ get_dummies (K := K) f (getCatCells cols f) b) g) b),
          d ∉ colNames (dropAll cols f ++ get_dummies (K := K) f (getCatCells cols f) b) := by
        intro g hg d hd
        rw [hgc g hg] at hd
        rw [colNames_append]
        intro hmem
        rcases List.mem_append.mp hmem with h | h
        · rw [colNames_dropAll] at h
          exact hfresh g (List.mem_cons_of_mem _ hg) d hd (List.mem_of_mem_filter h)
        · have hd2 : d ∈ fs'.flatMap
              (fun g => colNames (get_dummies (K := K) g (getCatCells cols g) b)) :=
            List.mem_flatMap.mpr ⟨g, hg, hd⟩
          exact hdisj h hd2
      have hglobal2 : (fs'.flatMap (fun g => colNames (get_dummies (K := K) g
          (getCatCells (dropAll cols f ++ get_dummies (K := K) f (getCatCells cols f) b) g)
          b))).Nodup := by
        rw [flatMap_congr (fun g hg => by rw [hgc g hg])]
        exact (List.nodup_append.mp hglobal').2.1
      have hihyp := ih (dropAll cols f ++ get_dummies (K := K) f (getCatCells cols f) b)
        (acc ++ colNames (get_dummies (K := K) f (getCatCells cols f) b))
        (List.nodup_cons.mp hnd).2 hpres' hfresh' hglobal2
      show fs'.foldl (dummyStep b) (dummyStep b (cols, acc) f) = _
      rw [hstep, hihyp]
      simp only [Prod.mk.injEq]
      constructor
      · rw [List.filter_append]
        have hDkeep : (get_dummies (K := K) f (getCatCells cols f) b).filter
            (fun p => decide (p.1 ∉ fs')) = get_dummies (K := K) f (getCatCells cols f) b := by
          rw [List.filter_eq_self]
          intro p hp
          simp only [decide_eq_true_eq]
          intro hmem
          obtain ⟨cs, hcs⟩ := hpres p.1 (List.mem_cons_of_mem _ hmem)
          exact hfD p.1 (List.mem_map_of_mem Prod.fst hp) (findCol?_isSome_mem hcs)
        have hkept : (dropAll cols f).filter (fun p => decide (p.1 ∉ fs')) =
            cols.filter (fun p => decide (p.1 ∉ f :: fs')) := by
          rw [dropAll, List.filter_filter]
          refine List.filter_congr ?_
          intro p _
          by_cases h1 : p.1 = f
          · simp [h1]
          · by_cases h2 : p.1 ∈ fs' <;> simp [h1, h2]
        rw [hDkeep, hkept]
        rw [flatMap_congr (fun g hg => by rw [hgc g hg])]
        rw [List.flatMap_cons, List.append_assoc]
      · rw [flatMap_congr (fun g hg => by rw [hgc g hg])]
        rw [List.flatMap_cons, List.append_assoc]

/-- Closed form of the indicator columns the expansion loop of
`replace_by_dummies` produces from the original table (the loop's
`found_dummies` accumulator, under fresh indicator names). -/
def producedDummies {K : Type} [LinearOrderedField K] (data : DF K) (target : List String)
    (b : Bool) : List (String × Col K) :=
  ((catNames data).filter (fun c => decide (c ∉ target))).flatMap
    (fun f => get_dummies f (getCatCells data.cols f) b)

/-- C2.  In apply mode with a non-empty vocabulary `ds`, the indicator-column
set of the output is exactly `ds`: produced indicator columns outside the
vocabulary are dropped, vocabulary columns that were not produced are appended
as all-zero columns, and the vocabulary itself is returned — whatever
categories the input table contained.  (Hypotheses: unique column names and
fresh, duplicate-free indicator names.) -/
theorem replace_by_dummies_vocabulary {K : Type} [LinearOrderedField K]
    (data : DF K) (target : List String) (ds : List String) (b : Bool)
    (hne : ds ≠ []) (hnd : data.names.Nodup)
    (hfresh : ∀ d ∈ colNames (producedDummies data target b), d ∉ data.names)
    (hpnd : (colNames (producedDummies data target b)).Nodup)
    (hdsnd : ds.Nodup)
    (hds : ∀ m ∈ ds, m ∉ colNames (producedDummies data target b) → m ∉ data.names) :
    (replace_by_dummies data target (some ds) b).2 = ds ∧
    (∀ n, n ∈ (replace_by_dummies data target (some ds) b).1.names ↔
      ((n ∈ data.names ∧
          n ∉ (catNames data).filter (fun c => decide (c ∉ target))) ∨ n ∈ ds)) ∧
    (∀ m ∈ ds, m ∉ colNames (producedDummies data target b) →
      (replace_by_dummies data target (some ds) b).1.col? m =
        some (Col.num (List.replicate data.nrows (some (0:K))))) ∧
    (∀ n ∈ colNames (producedDummies data target b), n ∉ ds →
      n ∉ (replace_by_dummies data target (some ds) b).1.names) := by
  have hfsnd : ((catNames data).filter (fun c => decide (c ∉ target))).Nodup :=
    ((catNames_cols_sublist data.cols).nodup hnd).filter _
  have hpres : ∀ f ∈ (catNames data).filter (fun c => decide (c ∉ target)),
      ∃ cs, findCol? data.cols f = some (Col.cat cs) :=
    fun f hf => findCol?_of_catName data.cols hnd f (List.mem_of_mem_filter hf)
  have hPeq : producedDummies data target b =
      ((catNames data).filter (fun c => decide (c ∉ target))).flatMap
        (fun f => get_dummies (K := K) f (getCatCells data.cols f) b) := rfl
  have hnamesP : colNames (producedDummies data target b) =
      ((catNames data).filter (fun c => decide (c ∉ target))).flatMap
        (fun f => colNames (get_dummies (K := K) f (getCatCells data.cols f) b)) := by
    rw [hPeq]
    exact List.map_flatMap _ _ _
  have hfr : ∀ f ∈ (catNames data).filter (fun c => decide (c ∉ target)),
      ∀ d ∈ colNames (get_dummies (K := K) f (getCatCells data.cols f) b),
        d ∉ colNames data.cols := by
    intro f hf d hd
    refine hfresh d ?_
    rw [hnamesP]
    exact List.mem_flatMap.mpr ⟨f, hf, hd⟩
  have hglob : (((catNames data).filter (fun c => decide (c ∉ target))).flatMap
      (fun f => colNames (get_dummies (K := K) f (getCatCells data.cols f) b))).Nodup := by
    rw [← hnamesP]
    exact hpnd
  have hloop := dummyStep_foldl b ((catNames data).filter (fun c => decide (c ∉ target)))
    data.cols [] hfsnd hpres hfr hglob
  have hcreate : falsyDict (some ds) = false := by
    cases ds with
    | nil => exact absurd rfl hne
    | cons a l => rfl
  have hr : replace_by_dummies data target (some ds) b =
      (DF.mk ((ds.filter (fun m => decide (m ∉ colNames (producedDummies data target b)))).foldl
          (setColZero data.nrows)
        (((colNames (producedDummies data target b)).filter
            (fun n => decide (n ∉ ds))).foldl dropAll
          (data.cols.filter (fun p => decide (p.1 ∉
            (catNames data).filter (fun c => decide (c ∉ target)))) ++
            producedDummies data target b))), ds) := by
    rw [replace_by_dummies]
    simp only [hcreate, Bool.false_eq_true, if_false, Option.getD_some]
    rw [hloop]
    simp only [List.nil_append]
    rw [← hPeq, ← hnamesP]
  -- the table after dropping the out-of-vocabulary indicator columns
  have hcols2 : ((colNames (producedDummies data target b)).filter
        (fun n => decide (n ∉ ds))).foldl dropAll
      (data.cols.filter (fun p => decide (p.1 ∉
        (catNames data).filter (fun c => decide (c ∉ target)))) ++
        producedDummies data target b) =
      (data.cols.filter (fun p => decide (p.1 ∉
        (catNames data).filter (fun c => decide (c ∉ target)))) ++
        producedDummies data target b).filter
        (fun p => decide (p.1 ∉ (colNames (producedDummies data target b)).filter
          (fun n => decide (n ∉ ds)))) :=
    foldl_dropAll _ _
  have hnames2 : colNames ((data.cols.filter (fun p => decide (p.1 ∉
        (catNames data).filter (fun c => decide (c ∉ target)))) ++
        producedDummies data target b).filter
        (fun p => decide (p.1 ∉ (colNames (producedDummies data target b)).filter
          (fun n => decide (n ∉ ds))))) =
      ((colNames data.cols).filter (fun n => decide (n ∉
        (catNames data).filter (fun c => decide (c ∉ target)))) ++
        colNames (producedDummies data target b)).filter
        (fun n => decide (n ∉ (colNames (producedDummies data target b)).filter
          (fun m => decide (m ∉ ds)))) := by
    rw [colNames_filter_name (fun n => decide (n ∉
      (colNames (producedDummies data target b)).filter (fun m => decide (m ∉ ds))))]
    rw [colNames_append]
    rw [colNames_filter_name (fun n => decide (n ∉
      (catNames data).filter (fun c => decide (c ∉ target))))]
  have hmisnd : (ds.filter (fun m => decide
      (m ∉ colNames (producedDummies data target b)))).Nodup := hdsnd.filter _
  have hmisfresh : ∀ m ∈ ds.filter (fun m => decide
      (m ∉ colNames (producedDummies data target b))),
      m ∉ colNames ((data.cols.filter (fun p => decide (p.1 ∉
        (catNames data).filter (fun c => decide (c ∉ target)))) ++
        producedDummies data target b).filter
        (fun p => decide (p.1 ∉ (colNames (producedDummies data target b)).filter
          (fun n => decide (n ∉ ds))))) := by
    intro m hm
    have hmds : m ∈ ds := List.mem_of_mem_filter hm
    have hmP : m ∉ colNames (producedDummies data target b) := by
      have := List.of_mem_filter hm
      simpa using this
    have hmn : m ∉ data.names := hds m hmds hmP
    rw [hnames2]
    intro hmem
    have hmem2 := List.mem_of_mem_filter hmem
    rcases List.mem_append.mp hmem2 with h | h
    · exact hmn (List.mem_of_mem_filter h)
    · exact hmP h
  obtain ⟨hzn, hzz, hzo⟩ := foldl_setColZero (K := K) data.nrows
    (ds.filter (fun m => decide (m ∉ colNames (producedDummies data target b))))
    _ hmisnd (by rw [← hcols2] at hmisfresh; exact hmisfresh)
  refine ⟨by rw [hr], ?_, ?_, ?_⟩
  · intro n
    rw [hr]
    show n ∈ colNames _ ↔ _
    rw [hzn, hcols2, hnames2]
    have h1 : n ∈ colNames (producedDummies data target b) → n ∉ colNames data.cols :=
      hfresh n
    have h2 : n ∈ ds → n ∉ colNames (producedDummies data target b) →
        n ∉ colNames data.cols := hds n
    simp only [DF.names, List.mem_append, List.mem_filter, decide_eq_true_eq]
    tauto
  · intro m hm hmP
    rw [hr]
    show findCol? _ m = _
    exact hzz m (List.mem_filter.mpr ⟨hm, by simpa using hmP⟩)
  · intro n hn hnds
    rw [hr]
    show n ∉ colNames _
    rw [hzn, hcols2, hnames2]
    have h1 : n ∉ colNames data.cols := hfresh n hn
    simp only [List.mem_append, List.mem_filter, decide_eq_true_eq]
    tauto

/-- Table with a single categorical column holding `A` and `C`, used to replay
a fixed vocabulary containing `c_A` and `c_B` but not `c_C`. -/
def dummyData : DF ℚ := DF.mk [("c", Col.cat [some "A", some "C"])]

theorem replace_by_dummies_vocabulary_witness :
    (["c_A", "c_B"] : List String) ≠ [] ∧
    ((replace_by_dummies dummyData [] (some ["c_A", "c_B"]) false).2 = ["c_A", "c_B"] ∧
     (∀ n, n ∈ (replace_by_dummies dummyData [] (some ["c_A", "c_B"]) false).1.names ↔
        ((n ∈ dummyData.names ∧
            n ∉ (catNames dummyData).filter (fun c => decide (c ∉ ([] : List String)))) ∨
          n ∈ ["c_A", "c_B"])) ∧
     (replace_by_dummies dummyData [] (some ["c_A", "c_B"]) false).1.col? "c_B" =
        some (Col.num (List.replicate dummyData.nrows (some (0:ℚ)))) ∧
     "c_C" ∉ (replace_by_dummies dummyData [] (some ["c_A", "c_B"]) false).1.names) := by
  have hne : (["c_A", "c_B"] : List String) ≠ [] := by decide
  obtain ⟨h1, h2, h3, h4⟩ := replace_by_dummies_vocabulary dummyData [] ["c_A", "c_B"] false
    hne (by decide) (by decide) (by decide) (by decide) (by decide)
  exact ⟨hne, h1, h2, h3 "c_B" (by decide) (by decide), h4 "c_C" (by decide) (by decide)⟩
